import Mathlib

/-!
Verification of the zero-report ETL core (`zero_report_parse.py`).

The Python source is shallowly embedded over `List Char` (Python `str` is a
sequence of Unicode code points, exactly `List Char`).  Every definition below
is translated from the source file; comments name the Python symbol and line.

Regular-expression calls are embedded as dedicated matching functions that
reproduce Python `re.search` semantics (leftmost starting position first, then
backtracking with greedy/lazy priority) for the concrete patterns appearing in
the source.  The backtracking choice points are enumerated explicitly in the
same priority order the `re` engine uses, so the functions compute the same
match and the same group 1 as the Python code.
-/

/-- Bidi marks removed by `clean_text` / `normalize`:
`re.sub(r"[\u200f\u200e]", "", text)`. -/
def isBidiMark (c : Char) : Bool :=
  c = '\u200f' || c = '\u200e'

/-- Model of the canonical composition table of Unicode, restricted to the
repertoire used in this development: Hebrew letters, ASCII letters, digits and
punctuation, whitespace and the bidi marks are all NFKC-inert, and the single
canonical composition pair U+0061 LATIN SMALL LETTER A followed by U+0301
COMBINING ACUTE ACCENT composes to U+00E1.  (Per UnicodeData, none of the
other characters used here canonically compose or compatibility-decompose.) -/
def composePair (a b : Char) : Option Char :=
  if a = 'a' && b = '\u0301' then some 'á' else none

/-- One step of the left-to-right canonical-composition pass: the accumulator
holds the output so far in reverse; a new character either composes with the
last emitted character or is emitted itself. -/
def composeStep (acc : List Char) (c : Char) : List Char :=
  match acc with
  | [] => [c]
  | a :: t =>
    match composePair a c with
    | some d => d :: t
    | none => c :: a :: t

/-- Model of `unicodedata.normalize("NFKC", text)` on the restricted
repertoire: since no character of the repertoire has a compatibility or
canonical decomposition, NFKC reduces to canonical composition of adjacent
(starter, combining-mark) pairs, computed by a single left-to-right pass. -/
def nfkc (l : List Char) : List Char :=
  (l.foldl composeStep []).reverse

/-- `re.sub(r"[\u200f\u200e]", "", text)`. -/
def removeMarks (l : List Char) : List Char :=
  l.filter (fun c => !(isBidiMark c))

/-- Whitespace per Python `str.strip()` and `re` `\s`, restricted to the
whitespace characters that can occur here (ASCII whitespace and NBSP). -/
def isPySpace (c : Char) : Bool :=
  c = ' ' || c = '\t' || c = '\n' || c = '\r' || c = '\x0b' || c = '\x0c' || c = '\u00a0'

/-- Python `str.strip()` (left part). -/
def trimL (l : List Char) : List Char :=
  l.dropWhile isPySpace

/-- Python `str.strip()` (right part). -/
def trimR (l : List Char) : List Char :=
  l.rdropWhile isPySpace

/-- Python `str.strip()`. -/
def trim (l : List Char) : List Char :=
  trimR (trimL l)

/-- `clean_text` from `extract_structured_data` (lines 77-79):
NFKC normalization, removal of U+200E/U+200F, then `.strip()`. -/
def clean_text (l : List Char) : List Char :=
  trim (removeMarks (nfkc l))

/-- `flip_line` (lines 81-82): `line[::-1]`, reversal of the code points. -/
def flip_line (l : List Char) : List Char :=
  l.reverse

/-- Length of the leading run of `\s` characters. -/
def leadingWs (l : List Char) : Nat :=
  (l.takeWhile isPySpace).length

/-- Backtracking choices of the optional separator `[:\-]?` at the head of
`r`: consume one character if it is a colon or a dash (tried first, the
quantifier is greedy), then the empty alternative. -/
def sepChoices (r : List Char) : List Nat :=
  match r with
  | c :: _ => if c = ':' || c = '-' then [1, 0] else [0]
  | [] => [0]

/-- Matching of the tail `\s*[:\-]?\s*(.+)` of the forward pattern
`rf"{label}\s*[:\-]?\s*(.+)"` against the remainder `r` of the line after a
label occurrence, returning group 1.  The choice points are enumerated in
regex priority order: first `\s*` longest first, `[:\-]?` present first,
second `\s*` longest first; `(.+)` is last in the pattern and greedy, so it
takes the whole (necessarily non-empty) rest.  `.` matches any character
here because the scanned lines contain no newline (they come from
`str.split("\n")`). -/
def consumeFwd (r : List Char) : Option (List Char) :=
  (List.range (leadingWs r + 1)).reverse.findSome? fun a =>
    let r1 := r.drop a
    (sepChoices r1).findSome? fun b =>
      let r2 := r1.drop b
      (List.range (leadingWs r2 + 1)).reverse.findSome? fun c =>
        let r3 := r2.drop c
        if r3.isEmpty then none else some r3

/-- `re.search(rf"{label}\s*[:\-]?\s*(.+)", s)`, returning group 1:
starting positions are tried left to right; at each, the literal label must
match, then `consumeFwd` handles the rest of the pattern. -/
def searchFwd (label : List Char) : List Char → Option (List Char)
  | [] => none
  | c :: t =>
    if label.isPrefixOf (c :: t) then
      match consumeFwd ((c :: t).drop label.length) with
      | some g => some g
      | none => searchFwd label t
    else searchFwd label t

/-- Whether `\s*[:\-]?\s*label` matches a prefix of `r` (the part of the
reverse pattern after the capture group), enumerating the same choice
points as the `re` engine. -/
def sepLabelAt (label r : List Char) : Bool :=
  (List.range (leadingWs r + 1)).any fun a =>
    let r1 := r.drop a
    (sepChoices r1).any fun b =>
      let r2 := r1.drop b
      (List.range (leadingWs r2 + 1)).any fun c =>
        label.isPrefixOf (r2.drop c)

/-- `re.search(rf"(.+)\s*[:\-]?\s*{label}", s)`, returning group 1.  The
match, if any, starts at position 0 (the greedy `(.+)` can absorb any prefix),
and group 1 is the longest k ≥ 1 such that `\s*[:\-]?\s*label` matches at
position k; k is enumerated longest first, as the greedy `(.+)` backtracks. -/
def searchRev (label s : List Char) : Option (List Char) :=
  (List.range s.length).reverse.findSome? fun k =>
    if k = 0 then none
    else if sepLabelAt label (s.drop k) then some (s.take k) else none

/-- Python `str.strip(".")` (applied in the source after `str.strip()`). -/
def stripDots (l : List Char) : List Char :=
  (l.dropWhile (fun c => c = '.')).rdropWhile (fun c => c = '.')

/-- Lines 98-102 of `extract_structured_data`, for one pattern `pat`
(given by its search function):
`match = re.search(pat, line) or re.search(pat, flipped)`;
on a match, `val = match.group(1).strip().strip(".")` and then
`if re.search(pat, flipped): val = val[::-1]`.
Note the reversal condition re-runs the search on `flipped` and is true even
when the successful match came from `line`. -/
def runPat (search : List Char → Option (List Char)) (line flipped : List Char) :
    Option (List Char) :=
  match (match search line with
         | some g => some g
         | none => search flipped) with
  | none => none
  | some g =>
    let v := stripDots (trim g)
    some (if (search flipped).isSome then v.reverse else v)

/-- `field_patterns` (lines 70-75), in Python dict insertion order. -/
def field_patterns : List (String × List (List Char)) :=
  [("block", ["גוש".data]),
   ("plot", ["חלקה".data]),
   ("registered_area", ["שטח רשום".data, "רשום שטח".data]),
   ("address", ["כתובת".data])]

/-- The mutable state of the extraction session: the Python `extracted` dict
(association list in insertion order) and the `seen_keys` set. -/
structure ExtractSt where
  extracted : List (String × List Char)
  seen : List String

/-- Python dict assignment `extracted[key] = val`: replace in place if the
key is present, else append. -/
def dictInsert (m : List (String × List Char)) (k : String) (v : List Char) :
    List (String × List Char) :=
  if m.any (fun p => p.1 == k) then
    m.map (fun p => if p.1 == k then (k, v) else p)
  else m ++ [(k, v)]

/-- `extracted[key] = val; seen_keys.add(key)` (lines 103-104). -/
def recordField (st : ExtractSt) (k : String) (v : List Char) : ExtractSt :=
  { extracted := dictInsert st.extracted k v,
    seen := if k ∈ st.seen then st.seen else k :: st.seen }

/-- The `for pat in (fwd_pat, rev_pat)` loop (lines 97-106) for one label:
the forward pattern is tried first; the loop `break`s after the first
pattern that matched. -/
def processLabel (st : ExtractSt) (key : String) (label line flipped : List Char) :
    ExtractSt :=
  match runPat (searchFwd label) line flipped with
  | some v => recordField st key v
  | none =>
    match runPat (searchRev label) line flipped with
    | some v => recordField st key v
    | none => st

/-- The `for key, labels in field_patterns.items()` body (lines 91-106):
skip a key already in `seen_keys`, otherwise try every label in list order
(the Python label loop has no `break`, so it continues past a successful
label). -/
def processKey (line flipped : List Char) (st : ExtractSt)
    (kl : String × List (List Char)) : ExtractSt :=
  if kl.1 ∈ st.seen then st
  else kl.2.foldl (fun st lab => processLabel st kl.1 lab line flipped) st

/-- Per-line processing (lines 90-106): `line, flipped =
clean_text(raw_line), flip_line(clean_text(raw_line))`, then the key loop. -/
def processLine (st : ExtractSt) (rawLine : List Char) : ExtractSt :=
  let line := clean_text rawLine
  field_patterns.foldl (processKey line (flip_line (clean_text rawLine))) st

/-- Python `str.split("\n")`. -/
def splitLines : List Char → List (List Char)
  | [] => [[]]
  | c :: t =>
    if c = '\n' then [] :: splitLines t
    else
      match splitLines t with
      | [] => [[c]]
      | h :: r => (c :: h) :: r

/-- Default `max_pages` of `extract_structured_data` (line 69). -/
def EXTRACT_MAX_PAGES : Nat := 4

/-- Default `max_pages` of `extract_text_sample` (line 40). -/
def SAMPLE_MAX_PAGES : Nat := 10

/-- `extract_structured_data` (lines 69-107).  The PDF-text collaborator is
abstracted as the list of per-page extracted texts; the loop
`for page_num in range(min(len(pdf.pages), max_pages))` visits exactly
`pages.take max_pages`. -/
def extract_structured_data (pages : List (List Char)) (max_pages : Nat) :
    List (String × List Char) :=
  ((pages.take max_pages).foldl
    (fun st page => (splitLines page).foldl processLine st)
    { extracted := [], seen := [] }).extracted

/-- Lookup in the result mapping (Python `extracted.get(key)`). -/
def getField (m : List (String × List Char)) (k : String) : Option (List Char) :=
  (m.find? (fun p => p.1 == k)).map Prod.snd

/-- Choices of the optional prefix `(?:תוספת|הוספת)?` in the floors
patterns of `_extract_numbers_fallback`, in regex priority order (the
alternatives in order, then the empty choice of `?`). -/
def prefixOpts : List (List Char) :=
  ["תוספת".data, "הוספת".data, []]

/-- The character class `[א-ת ]` (Hebrew letters U+05D0–U+05EA or a space). -/
def isHebOrSpace (c : Char) : Bool :=
  (1488 ≤ c.toNat && c.toNat ≤ 1514) || c = ' '

/-- ASCII decimal digits; Python `\d` in the source only ever faces ASCII
digits (the corpus and all claim inputs are ASCII-digit based). -/
def isAsciiDigit (c : Char) : Bool :=
  '0' ≤ c && c ≤ '9'

/-- Match of `(?:תוספת|הוספת)?\s*(\d+)\s*(?:קומות?|קומה)` (line 218) at one
starting position, returning group 1.  Choice points in priority order:
prefix alternative, first `\s*` longest first, `(\d+)` longest first,
second `\s*` longest first, then the closing alternation (`קומות`, `קומו`
or `קומה` — the group is unaffected by which alternative closes). -/
def matchFloorsNumAt (u : List Char) : Option (List Char) :=
  prefixOpts.findSome? fun pre =>
    if pre.isPrefixOf u then
      let u1 := u.drop pre.length
      (List.range (leadingWs u1 + 1)).reverse.findSome? fun a =>
        let u2 := u1.drop a
        let run := (u2.takeWhile isAsciiDigit).length
        (List.range run).reverse.findSome? fun i =>
          let len := i + 1
          let u3 := u2.drop len
          (List.range (leadingWs u3 + 1)).reverse.findSome? fun c =>
            let u4 := u3.drop c
            if ("קומות".data.isPrefixOf u4) || ("קומו".data.isPrefixOf u4) ||
               ("קומה".data.isPrefixOf u4) then
              some (u2.take len)
            else none
    else none

/-- Match of `(?:תוספת|הוספת)?\s*([א-ת ]+?)\s*(?:קומה|קומות)` (line 224) at
one starting position, returning the lazily captured group 1 (shortest
first). -/
def matchFloorsWordAt (u : List Char) : Option (List Char) :=
  prefixOpts.findSome? fun pre =>
    if pre.isPrefixOf u then
      let u1 := u.drop pre.length
      (List.range (leadingWs u1 + 1)).reverse.findSome? fun a =>
        let u2 := u1.drop a
        let run := (u2.takeWhile isHebOrSpace).length
        (List.range run).findSome? fun i =>
          let len := i + 1
          let u3 := u2.drop len
          (List.range (leadingWs u3 + 1)).reverse.findSome? fun c =>
            let u4 := u3.drop c
            if ("קומה".data.isPrefixOf u4) || ("קומות".data.isPrefixOf u4) then
              some (u2.take len)
            else none
    else none

/-- The alternative `יחידות\s*דיור` of the units pattern. -/
def unitsPhrase (u : List Char) : Bool :=
  if "יחידות".data.isPrefixOf u then
    let r := u.drop ("יחידות".data.length)
    (List.range (leadingWs r + 1)).any fun c => "דיור".data.isPrefixOf (r.drop c)
  else false

/-- Match of `(\d+)\s*(?:יח\"?ד|יחידות\s*דיור)` (line 229) at one starting
position, returning group 1. -/
def matchUnitsAt (u : List Char) : Option (List Char) :=
  let run := (u.takeWhile isAsciiDigit).length
  (List.range run).reverse.findSome? fun i =>
    let len := i + 1
    let u3 := u.drop len
    (List.range (leadingWs u3 + 1)).reverse.findSome? fun c =>
      let u4 := u3.drop c
      if ("יח\"ד".data.isPrefixOf u4) || ("יחד".data.isPrefixOf u4) ||
         unitsPhrase u4 then
        some (u.take len)
      else none

/-- `re.search` scanning: starting positions left to right, the position at
the very end included. -/
def scanSearch (f : List Char → Option (List Char)) : List Char → Option (List Char)
  | [] => f []
  | c :: t =>
    match f (c :: t) with
    | some r => some r
    | none => scanSearch f t

/-- Python `int(...)` on a string of ASCII digits. -/
def digitsToNat (l : List Char) : Nat :=
  l.foldl (fun n c => n * 10 + (c.toNat - 48)) 0

/-- The lookup table of `_hebrew_word_to_int` (lines 192-207), verbatim. -/
def numberWords : List (List Char × Nat) :=
  [("אחת".data, 1), ("אחד".data, 1),
   ("שתיים".data, 2), ("שתי".data, 2), ("שניים".data, 2), ("שני".data, 2),
   ("שלוש".data, 3), ("שלושה".data, 3),
   ("ארבע".data, 4), ("ארבעה".data, 4),
   ("חמש".data, 5), ("חמישה".data, 5),
   ("שש".data, 6), ("שישה".data, 6),
   ("שבע".data, 7), ("שבעה".data, 7),
   ("שמונה".data, 8), ("שמונהְ".data, 8),
   ("תשע".data, 9), ("תשעה".data, 9),
   ("עשר".data, 10), ("עשרה".data, 10),
   ("אחת עשרה".data, 11), ("אחד עשר".data, 11),
   ("שתים עשרה".data, 12), ("שנים עשר".data, 12)]

/-- `_hebrew_word_to_int` (lines 192-207): `m.get(word.strip(), 0)`. -/
def hebrew_word_to_int (word : List Char) : Nat :=
  ((numberWords.find? (fun p => p.1 == trim word)).map Prod.snd).getD 0

/-- `_extract_numbers_fallback` (lines 209-233): numeric floors pattern, the
Hebrew-word floors pattern when `floors == 0`, and the numeric units
pattern; unmatched quantities stay 0. -/
def extract_numbers_fallback (text : List Char) : Nat × Nat :=
  let floors0 :=
    match scanSearch matchFloorsNumAt text with
    | some d => digitsToNat d
    | none => 0
  let floors :=
    if floors0 = 0 then
      match scanSearch matchFloorsWordAt text with
      | some w => hebrew_word_to_int w
      | none => 0
    else floors0
  let units :=
    match scanSearch matchUnitsAt text with
    | some d => digitsToNat d
    | none => 0
  (floors, units)

/-- 32-bit truncation. -/
def w32 (n : Nat) : Nat := n % 4294967296

/-- Right rotation of a 32-bit word. -/
def rotr (k n : Nat) : Nat := n / 2 ^ k + n % 2 ^ k * 2 ^ (32 - k)

/-- Logical right shift. -/
def shr (k n : Nat) : Nat := n / 2 ^ k

/-- SHA-256 Ch(x,y,z). -/
def chF (x y z : Nat) : Nat := Nat.xor (Nat.land x y) (Nat.land (4294967295 - x) z)

/-- SHA-256 Maj(x,y,z). -/
def majF (x y z : Nat) : Nat :=
  Nat.xor (Nat.xor (Nat.land x y) (Nat.land x z)) (Nat.land y z)

/-- SHA-256 Σ0. -/
def bigSigma0 (x : Nat) : Nat := Nat.xor (Nat.xor (rotr 2 x) (rotr 13 x)) (rotr 22 x)

/-- SHA-256 Σ1. -/
def bigSigma1 (x : Nat) : Nat := Nat.xor (Nat.xor (rotr 6 x) (rotr 11 x)) (rotr 25 x)

/-- SHA-256 σ0. -/
def smallSigma0 (x : Nat) : Nat := Nat.xor (Nat.xor (rotr 7 x) (rotr 18 x)) (shr 3 x)

/-- SHA-256 σ1. -/
def smallSigma1 (x : Nat) : Nat := Nat.xor (Nat.xor (rotr 17 x) (rotr 19 x)) (shr 10 x)

/-- The SHA-256 round constants (FIPS 180-4). -/
def shaK : List Nat :=
  [1116352408, 1899447441, 3049323471, 3921009573,
   961987163, 1508970993, 2453635748, 2870763221,
   3624381080, 310598401, 607225278, 1426881987,
   1925078388, 2162078206, 2614888103, 3248222580,
   3835390401, 4022224774, 264347078, 604807628,
   770255983, 1249150122, 1555081692, 1996064986,
   2554220882, 2821834349, 2952996808, 3210313671,
   3336571891, 3584528711, 113926993, 338241895,
   666307205, 773529912, 1294757372, 1396182291,
   1695183700, 1986661051, 2177026350, 2456956037,
   2730485921, 2820302411, 3259730800, 3345764771,
   3516065817, 3600352804, 4094571909, 275423344,
   430227734, 506948616, 659060556, 883997877,
   958139571, 1322822218, 1537002063, 1747873779,
   1955562222, 2024104815, 2227730452, 2361852424,
   2428436474, 2756734187, 3204031479, 3329325298]

/-- The SHA-256 working state. -/
structure Sha256St where
  a : Nat
  b : Nat
  c : Nat
  d : Nat
  e : Nat
  f : Nat
  g : Nat
  h : Nat

/-- The SHA-256 initial hash value. -/
def shaH0 : Sha256St :=
  ⟨1779033703, 3144134277, 1013904242, 2773480762,
   1359893119, 2600822924, 528734635, 1541459225⟩

/-- The 64-word message schedule of one 64-byte chunk. -/
def shaSchedule (chunk : List Nat) : List Nat :=
  let w16 := (List.range 16).map fun i =>
    chunk.getD (4 * i) 0 * 16777216 + chunk.getD (4 * i + 1) 0 * 65536 +
    chunk.getD (4 * i + 2) 0 * 256 + chunk.getD (4 * i + 3) 0
  (List.range 48).foldl
    (fun w _ =>
      let i := w.length
      w ++ [w32 (smallSigma1 (w.getD (i - 2) 0) + w.getD (i - 7) 0 +
                 smallSigma0 (w.getD (i - 15) 0) + w.getD (i - 16) 0)])
    w16

/-- The SHA-256 compression of one chunk into the running state. -/
def shaCompress (st : Sha256St) (chunk : List Nat) : Sha256St :=
  let ws := shaSchedule chunk
  let fin := (List.range 64).foldl
    (fun t i =>
      let t1 := w32 (t.h + bigSigma1 t.e + chF t.e t.f t.g + shaK.getD i 0 +
                     ws.getD i 0)
      let t2 := w32 (bigSigma0 t.a + majF t.a t.b t.c)
      ⟨w32 (t1 + t2), t.a, t.b, t.c, w32 (t.d + t1), t.e, t.f, t.g⟩)
    st
  ⟨w32 (st.a + fin.a), w32 (st.b + fin.b), w32 (st.c + fin.c),
   w32 (st.d + fin.d), w32 (st.e + fin.e), w32 (st.f + fin.f),
   w32 (st.g + fin.g), w32 (st.h + fin.h)⟩

/-- SHA-256 padding: 0x80, zeros to 56 mod 64, then the bit length as eight
big-endian bytes. -/
def shaPad (msg : List Nat) : List Nat :=
  msg ++ [128] ++ List.replicate ((119 - msg.length % 64) % 64) 0 ++
  ([56, 48, 40, 32, 24, 16, 8, 0].map fun s => 8 * msg.length / 2 ^ s % 256)

/-- Split a byte list into 64-byte chunks (fuel-based structural recursion;
fuel `l.length` suffices since every step consumes at least one byte). -/
def chunks64Aux : Nat → List Nat → List (List Nat)
  | 0, _ => []
  | _, [] => []
  | fuel + 1, c :: t => (c :: t).take 64 :: chunks64Aux fuel ((c :: t).drop 64)

/-- Split a byte list into 64-byte chunks. -/
def chunks64 (l : List Nat) : List (List Nat) :=
  chunks64Aux l.length l

/-- The SHA-256 state after hashing a byte string. -/
def sha256Run (msg : List Nat) : Sha256St :=
  (chunks64 (shaPad msg)).foldl shaCompress shaH0

/-- The lowercase hex digit of index `i`: `0`-`9` then `a`-`f`. -/
def hexAux (i : Fin 16) : Char :=
  if i.val < 10 then Char.ofNat (48 + i.val) else Char.ofNat (87 + i.val)

/-- Lowercase hex digit of `n % 16`. -/
def hexChar (n : Nat) : Char :=
  hexAux ⟨n % 16, Nat.mod_lt n (by decide)⟩

/-- One 32-bit word as eight lowercase hex characters, most significant
nibble first. -/
def wordHex (w : Nat) : List Char :=
  [hexChar (w / 268435456), hexChar (w / 16777216), hexChar (w / 1048576),
   hexChar (w / 65536), hexChar (w / 4096), hexChar (w / 256),
   hexChar (w / 16), hexChar w]

/-- `hashlib.sha256(...).hexdigest()` as a character list. -/
def sha256_hexdigest (msg : List Nat) : List Char :=
  let st := sha256Run msg
  wordHex st.a ++ wordHex st.b ++ wordHex st.c ++ wordHex st.d ++
  wordHex st.e ++ wordHex st.f ++ wordHex st.g ++ wordHex st.h

/-- UTF-8 encoding of one code point (Python `str.encode()`). -/
def utf8Char (c : Char) : List Nat :=
  let n := c.toNat
  if n < 128 then [n]
  else if n < 2048 then [192 + n / 64, 128 + n % 64]
  else if n < 65536 then [224 + n / 4096, 128 + n / 64 % 64, 128 + n % 64]
  else [240 + n / 262144, 128 + n / 4096 % 64, 128 + n / 64 % 64, 128 + n % 64]

/-- UTF-8 encoding of a string. -/
def utf8Encode (l : List Char) : List Nat :=
  l.foldr (fun c acc => utf8Char c ++ acc) []

/-- Lowercase-hex test used in the statements about `generate_doc_id`. -/
def isHexLowerB (c : Char) : Bool :=
  "0123456789abcdef".data.contains c

/-- `generate_doc_id` (lines 32-34):
`hashlib.sha256(f"{bucket}/{key}/{etag}".encode()).hexdigest()[:16]`. -/
def generate_doc_id (bucket key etag : String) : String :=
  String.mk ((sha256_hexdigest (utf8Encode (bucket ++ "/" ++ key ++ "/" ++ etag).data)).take 16)

/-- Python `str.lower()`, modelled characterwise (the keys checked here are
ASCII-suffixed object keys, where `str.lower` is exactly the per-character
lowercase map). -/
def lowerStr (l : List Char) : List Char :=
  l.map Char.toLower

/-- `key.lower().endswith(".pdf")` (line 21). -/
def endsWithPdf (key : List Char) : Bool :=
  ".pdf".data.isSuffixOf (lowerStr key)

/-- The sanity checks of `load_pdf_bytes` (lines 17-30), after the external
`head_object` call has reported the object's `ContentLength` (possibly
absent: `head.get("ContentLength", 0)`).  `.error` models the raised
`ValueError`. -/
def load_pdf_check (key : List Char) (contentLength : Option Nat) :
    Except String Unit :=
  if !(endsWithPdf key) then Except.error "Object key does not end with .pdf"
  else if contentLength.getD 0 < 1024 then
    Except.error "Object too small to be a valid PDF"
  else Except.ok ()

/-- Whether an `Except` is an error. -/
def isErr : Except String Unit → Bool
  | Except.error _ => true
  | Except.ok _ => false

/-- `HEBREW_RE = re.compile(r"[֐-׿]")`; `has_hebrew` (lines 15,
46-47). -/
def hasHebrew (l : List Char) : Bool :=
  l.any fun c => 1424 ≤ c.toNat && c.toNat ≤ 1535

/-- `"\n".join(pages)` as in `extract_text_sample` (line 44). -/
def joinLines : List (List Char) → List Char
  | [] => []
  | [p] => p
  | p :: q :: r => p ++ '\n' :: joinLines (q :: r)

/-- `extract_text_sample` (lines 40-44): the joined text of the first
`max_pages` pages and the page count. -/
def extract_text_sample (pages : List (List Char)) (max_pages : Nat) :
    List Char × Nat :=
  (joinLines (pages.take max_pages), pages.length)

/-- The control flow of `main` (lines 317-343) up to the structured
extraction, over the abstract inputs (source key, reported object size,
per-page texts).  `load_pdf_bytes` failure exits with code 2 (lines
317-321) before any text sampling or field extraction; an empty sample
exits 4; a sample without Hebrew characters exits 5; otherwise the
structured extraction runs with its default page cap. -/
def mainModel (key : List Char) (contentLength : Option Nat)
    (pages : List (List Char)) : Except Nat (List (String × List Char)) :=
  match load_pdf_check key contentLength with
  | Except.error _ => Except.error 2
  | Except.ok _ =>
    let sample := (extract_text_sample pages SAMPLE_MAX_PAGES).1
    if (trim sample).isEmpty then Except.error 4
    else if !(hasHebrew sample) then Except.error 5
    else Except.ok (extract_structured_data pages EXTRACT_MAX_PAGES)

/-- The field keys of `field_patterns`, in order. -/
def goodKeys : List String :=
  field_patterns.map Prod.fst

/-- Invariant of the extraction state: every extracted key is one of the
four field keys, and no key occurs twice in the result mapping. -/
def StInv (st : ExtractSt) : Prop :=
  ((st.extracted.map Prod.fst).all (fun k => goodKeys.contains k) = true)
  ∧ (st.extracted.map Prod.fst).Nodup

/-- C6: `flip_line` (Python `line[::-1]`, reversal of the sequence of
Unicode code points) is an involution: `mirror(mirror(x)) == x` for every
string `x`. -/
theorem flip_line_involution (x : List Char) : flip_line (flip_line x) = x := by
  simp [flip_line]

/-- C1, counterexample: on the single-line page that is the
character-reversal of `"כתובת: רחוב הרצל 5"`, the extractor does NOT report
the un-reversed value `"רחוב הרצל 5"` for `address` (it reports that value
reversed once more). -/
theorem c1_mirrored_value_not_unreversed :
    getField (extract_structured_data [("כתובת: רחוב הרצל 5".data).reverse]
        EXTRACT_MAX_PAGES) "address" ≠ some "רחוב הרצל 5".data := by
  decide

/-- C1 (amended): on the character-reversal of `"כתובת: רחוב הרצל 5"`, the
match for label `"כתובת"` occurs only against the mirrored line (both
patterns fail on the natural line, the forward pattern succeeds on the
mirrored line), and the reported value is the captured substring
`"רחוב הרצל 5"` reversed once — i.e. `"5 לצרה בוחר"` — exactly the
un-reversal rule applied to a capture that the mirroring had already
restored to reading order. -/
theorem c1_mirrored_match_value_reversed_once :
    searchFwd "כתובת".data (clean_text (("כתובת: רחוב הרצל 5".data).reverse)) = none
    ∧ searchRev "כתובת".data (clean_text (("כתובת: רחוב הרצל 5".data).reverse)) = none
    ∧ (searchFwd "כתובת".data
        (flip_line (clean_text (("כתובת: רחוב הרצל 5".data).reverse)))).isSome = true
    ∧ getField (extract_structured_data [("כתובת: רחוב הרצל 5".data).reverse]
        EXTRACT_MAX_PAGES) "address" = some (("רחוב הרצל 5".data).reverse) := by
  refine ⟨by decide, by decide, by decide, by decide⟩

/-- C2: document-order first-match-wins holds across lines and pages (the
two-page `plot` example yields the page-1 value), but NOT across the labels
of one key on a single line: on the line `"שטח רשום 11 רשום שטח 22"`, the
first label `"שטח רשום"` matches with captured value `"11 רשום שטח 22"` and
records it, and then the second label `"רשום שטח"` of the same key matches
on the same line and overwrites it with `"22"` (the Python label loop has no
`break` and the `seen_keys` guard is only checked per line). -/
theorem c2_overwrite_by_second_label :
    getField (extract_structured_data ["חלקה: 7".data, "חלקה: 9".data]
        EXTRACT_MAX_PAGES) "plot" = some "7".data
    ∧ searchFwd "שטח רשום".data "שטח רשום 11 רשום שטח 22".data
        = some "11 רשום שטח 22".data
    ∧ getField (extract_structured_data ["שטח רשום 11 רשום שטח 22".data]
        EXTRACT_MAX_PAGES) "registered_area" = some "22".data := by
  refine ⟨by decide, by decide, by decide⟩

/-- C3: on the line `"גוש 12 שוג"` the forward pattern for label `"גוש"`
matches BOTH the natural line (capturing `"12 שוג"`) and the mirrored line;
the captured value comes from the natural line, but because the code decides
un-reversal by re-running the search on the mirrored line, the
natural-line capture is reversed anyway: the reported value is
`"גוש 21"` = reverse of `"12 שוג"`, not the unreversed natural capture. -/
theorem c3_natural_capture_reversed :
    searchFwd "גוש".data (clean_text "גוש 12 שוג".data) = some "12 שוג".data
    ∧ (searchFwd "גוש".data (flip_line (clean_text "גוש 12 שוג".data))).isSome = true
    ∧ getField (extract_structured_data ["גוש 12 שוג".data] EXTRACT_MAX_PAGES)
        "block" = some (("12 שוג".data).reverse)
    ∧ ("12 שוג".data).reverse ≠ "12 שוג".data := by
  refine ⟨by decide, by decide, by decide, by decide⟩

/-- C5: on the context `"תוספת שלוש קומות ו-2 יח\"ד"` the numeric floors
pattern finds no match (the only digits, `2`, are not adjacent to the floor
word), the Hebrew-word pattern captures `"שלוש"` (translated to 3 by the
cardinal-word table), and the units pattern captures `2`:
the fallback resolves to `(3, 2)`. -/
theorem c5_fallback_three_floors_two_units :
    scanSearch matchFloorsNumAt "תוספת שלוש קומות ו-2 יח\"ד".data = none
    ∧ scanSearch matchFloorsWordAt "תוספת שלוש קומות ו-2 יח\"ד".data
        = some "שלוש".data
    ∧ hebrew_word_to_int "שלוש".data = 3
    ∧ extract_numbers_fallback "תוספת שלוש קומות ו-2 יח\"ד".data = (3, 2) := by
  refine ⟨by decide, by decide, by decide, by decide⟩

/-- Any output of the composition table is U+00E1. -/
theorem composePair_some_eq {a b d : Char} (h : composePair a b = some d) :
    d = 'á' := by
  unfold composePair at h
  split at h
  · exact (Option.some.inj h).symm
  · cases h

/-- U+00E1 never composes with a following character. -/
theorem composePair_after_composed (x : Char) : composePair x 'á' = none := by
  simp [composePair]

/-- Elements of a composition pass come from the accumulator, the input, or
are the composite U+00E1. -/
theorem mem_composeStep {y c : Char} {acc : List Char}
    (h : y ∈ composeStep acc c) : y ∈ acc ∨ y = c ∨ y = 'á' := by
  cases acc with
  | nil =>
    simp [composeStep] at h
    simp [h]
  | cons a t =>
    rcases hcp : composePair a c with _ | d
    · simp only [composeStep, hcp, List.mem_cons] at h
      rcases h with h | h | h
      · exact Or.inr (Or.inl h)
      · exact Or.inl (by simp [h])
      · exact Or.inl (List.mem_cons_of_mem a h)
    · simp only [composeStep, hcp, List.mem_cons] at h
      rcases h with h | h
      · exact Or.inr (Or.inr (h.trans (composePair_some_eq hcp)))
      · exact Or.inl (List.mem_cons_of_mem a h)

/-- Elements of the full composition fold. -/
theorem mem_compose_foldl {y : Char} :
    ∀ (l acc : List Char), y ∈ l.foldl composeStep acc →
      y ∈ acc ∨ y ∈ l ∨ y = 'á' := by
  intro l
  induction l with
  | nil => intro acc h; exact Or.inl h
  | cons c t ih =>
    intro acc h
    rcases ih (composeStep acc c) h with h' | h' | h'
    · rcases mem_composeStep h' with h'' | h'' | h''
      · exact Or.inl h''
      · exact Or.inr (Or.inl (h'' ▸ List.mem_cons_self c t))
      · exact Or.inr (Or.inr h'')
    · exact Or.inr (Or.inl (List.mem_cons_of_mem c h'))
    · exact Or.inr (Or.inr h')

/-- `nfkc` preserves freedom from bidi marks (U+00E1 is not a mark). -/
theorem nfkc_marksFree {x : List Char}
    (hx : x.all (fun c => !(isBidiMark c)) = true) :
    (nfkc x).all (fun c => !(isBidiMark c)) = true := by
  rw [List.all_eq_true] at hx ⊢
  intro y hy
  rw [nfkc, List.mem_reverse] at hy
  rcases mem_compose_foldl x [] hy with h | h | h
  · cases h
  · exact hx y h
  · subst h; decide

/-- After a composition step the accumulator (in output order) still has no
adjacent composable pair. -/
theorem chain_composeStep {acc : List Char} {c : Char}
    (h : List.Chain' (fun a b => composePair a b = none) acc.reverse) :
    List.Chain' (fun a b => composePair a b = none) (composeStep acc c).reverse := by
  cases acc with
  | nil => simp [composeStep]
  | cons a t =>
    rcases hcp : composePair a c with _ | d
    · simp only [composeStep, hcp, List.reverse_cons]
      rw [List.chain'_append]
      rw [List.reverse_cons] at h
      refine ⟨h, List.chain'_singleton c, ?_⟩
      intro x hx y hy
      rw [List.getLast?_concat] at hx
      simp only [List.head?_cons, Option.mem_def, Option.some.injEq] at hx hy
      rw [← hx, ← hy]
      exact hcp
    · rw [show composeStep (a :: t) c = d :: t by simp [composeStep, hcp]]
      rw [List.reverse_cons]
      rw [List.reverse_cons, List.chain'_append] at h
      obtain ⟨h1, _, _⟩ := h
      rw [List.chain'_append]
      refine ⟨h1, List.chain'_singleton d, ?_⟩
      intro x hx y hy
      simp only [List.head?_cons, Option.mem_def, Option.some.injEq] at hy
      rw [← hy, composePair_some_eq hcp]
      exact composePair_after_composed x

/-- The composition fold never leaves an adjacent composable pair. -/
theorem chain_compose_foldl :
    ∀ (l acc : List Char),
      List.Chain' (fun a b => composePair a b = none) acc.reverse →
      List.Chain' (fun a b => composePair a b = none)
        (l.foldl composeStep acc).reverse := by
  intro l
  induction l with
  | nil => intro acc h; exact h
  | cons c t ih => intro acc h; exact ih (composeStep acc c) (chain_composeStep h)

/-- The normalized form has no adjacent composable pair. -/
theorem nfkc_chain (l : List Char) :
    List.Chain' (fun a b => composePair a b = none) (nfkc l) :=
  chain_compose_foldl l [] (by simp)

/-- On an input with no adjacent composable pair, the composition fold is
the identity (it reverses into the accumulator). -/
theorem compose_foldl_of_chain :
    ∀ (l acc : List Char),
      List.Chain' (fun a b => composePair a b = none) (acc.reverse ++ l) →
      l.foldl composeStep acc = l.reverse ++ acc := by
  intro l
  induction l with
  | nil => intro acc _; simp
  | cons c rest ih =>
    intro acc h
    cases acc with
    | nil =>
      show rest.foldl composeStep [c] = (c :: rest).reverse ++ []
      rw [ih [c] (by simpa using h)]
      simp
    | cons a t =>
      have hac : composePair a c = none := by
        rw [List.reverse_cons] at h
        rw [show (t.reverse ++ [a]) ++ c :: rest = t.reverse ++ [a] ++ [c] ++ rest by
          simp] at h
        rw [List.chain'_append] at h
        obtain ⟨h1, _, _⟩ := h
        rw [List.chain'_append] at h1
        obtain ⟨_, _, hj⟩ := h1
        exact hj a (by simp [List.getLast?_concat]) c (by simp)
      show rest.foldl composeStep (composeStep (a :: t) c) = (c :: rest).reverse ++ (a :: t)
      rw [show composeStep (a :: t) c = c :: a :: t by simp [composeStep, hac]]
      rw [ih (c :: a :: t) (by
        rw [List.reverse_cons, List.reverse_cons]
        rw [List.reverse_cons] at h
        simpa using h)]
      simp

/-- `nfkc` is the identity on strings with no adjacent composable pair. -/
theorem nfkc_id_of_chain {l : List Char}
    (h : List.Chain' (fun a b => composePair a b = none) l) : nfkc l = l := by
  rw [nfkc, compose_foldl_of_chain l [] (by simpa using h)]
  simp

/-- `removeMarks` is the identity on mark-free strings. -/
theorem removeMarks_of_marksFree {l : List Char}
    (h : l.all (fun c => !(isBidiMark c)) = true) : removeMarks l = l := by
  rw [removeMarks, List.filter_eq_self]
  intro a ha
  exact List.all_eq_true.mp h a ha

/-- Elements of the stripped string are elements of the string. -/
theorem trim_subset {a : Char} {l : List Char} (h : a ∈ trim l) : a ∈ l := by
  rw [trim] at h
  have h1 : trimR (trimL l) <+: trimL l := List.rdropWhile_prefix _ _
  have h2 : trimL l <:+ l :=
    ⟨l.takeWhile isPySpace, by simp [trimL, List.takeWhile_append_dropWhile]⟩
  exact h2.subset (h1.subset h)

/-- Stripping preserves the absence of adjacent composable pairs (it removes
a prefix and a suffix). -/
theorem chain_trim {R : Char → Char → Prop} {l : List Char}
    (h : List.Chain' R l) : List.Chain' R (trim l) := by
  have h1 : List.Chain' R (trimL l) :=
    h.suffix ⟨l.takeWhile isPySpace, by simp [trimL, List.takeWhile_append_dropWhile]⟩
  rw [trim, trimR, List.rdropWhile]
  refine List.chain'_reverse.mpr ?_
  have h2 : List.Chain' (flip R) (trimL l).reverse :=
    List.chain'_reverse.mp (by simpa using h1)
  exact h2.suffix ⟨(trimL l).reverse.takeWhile isPySpace,
    by simp [List.takeWhile_append_dropWhile]⟩

/-- If left-stripping leaves a string unchanged, right-stripping does not
create new leading whitespace. -/
theorem trimL_trimR_self {u : List Char} (hu : trimL u = u) :
    trimL (trimR u) = trimR u := by
  cases h : trimR u with
  | nil => simp [trimL]
  | cons c t =>
    obtain ⟨s, hs⟩ : trimR u <+: u := List.rdropWhile_prefix _ _
    rw [h] at hs
    simp only [trimL] at hu ⊢
    have h0 : 0 < u.length := by rw [← hs]; simp
    have hc := List.dropWhile_eq_self_iff.mp hu h0
    have hg : u.get ⟨0, h0⟩ = c := by
      have : u = c :: (t ++ s) := by rw [← hs]; simp
      simp [this]
    rw [hg] at hc
    rw [List.dropWhile_cons, if_neg hc]

/-- `str.strip()` is idempotent. -/
theorem trim_idem (l : List Char) : trim (trim l) = trim l := by
  have hu : trimL (trimL l) = trimL l := by
    simp [trimL, List.dropWhile_idempotent]
  rw [trim, trim]
  rw [trimL_trimR_self hu]
  simp [trimR, List.rdropWhile_idempotent]

/-- C4, counterexample: the normalizer is NOT idempotent.  On
`[0x61, 0x200E, 0x0301]` (LATIN SMALL LETTER A, LEFT-TO-RIGHT MARK, COMBINING ACUTE
ACCENT) the bidi mark blocks canonical composition, so the first pass yields
`"á"`; removing the mark created a new composable pair, and the second
pass composes it to `"á"`. -/
theorem clean_text_not_idempotent :
    clean_text (clean_text ['a', '\u200e', '\u0301'])
      ≠ clean_text ['a', '\u200e', '\u0301'] := by
  decide

/-- C4 (amended): the normalizer is idempotent on every string that contains
no bidi mark (U+200E/U+200F) — mark removal is then the identity, the first
pass leaves no adjacent composable pair, and stripping preserves that. -/
theorem clean_text_idempotent_of_marksFree (x : List Char)
    (hx : x.all (fun c => !(isBidiMark c)) = true) :
    clean_text (clean_text x) = clean_text x := by
  have h1 : (nfkc x).all (fun c => !(isBidiMark c)) = true := nfkc_marksFree hx
  have h2 : clean_text x = trim (nfkc x) := by
    rw [clean_text, removeMarks_of_marksFree h1]
  have hy : (trim (nfkc x)).all (fun c => !(isBidiMark c)) = true := by
    rw [List.all_eq_true]
    intro a ha
    exact List.all_eq_true.mp h1 a (trim_subset ha)
  have hchain : List.Chain' (fun a b => composePair a b = none) (trim (nfkc x)) :=
    chain_trim (nfkc_chain x)
  rw [h2, clean_text, nfkc_id_of_chain hchain, removeMarks_of_marksFree hy]
  rw [show trim (trim (nfkc x)) = trim (trimR (trimL (nfkc x))) from rfl]
  exact trim_idem (nfkc x)

/-- Witness for the amended C4 at a concrete mark-free Hebrew line. -/
theorem clean_text_idempotent_witness :
    ("  גוש: 6941  ".data).all (fun c => !(isBidiMark c)) = true
    ∧ clean_text (clean_text "  גוש: 6941  ".data) = clean_text "  גוש: 6941  ".data := by
  exact ⟨by decide, clean_text_idempotent_of_marksFree _ (by decide)⟩

/-- C9: the numeral fallback resolver is a total function returning a pair
of naturals; when both floors patterns fail the floors count is 0, when the
units pattern fails the unit count is 0, and every word outside the fixed
lookup table resolves to 0. -/
theorem fallback_defaults (text : List Char) :
    (scanSearch matchFloorsNumAt text = none →
      scanSearch matchFloorsWordAt text = none →
      (extract_numbers_fallback text).1 = 0)
    ∧ (scanSearch matchUnitsAt text = none →
      (extract_numbers_fallback text).2 = 0)
    ∧ ∀ w : List Char,
        numberWords.find? (fun p => p.1 == trim w) = none →
        hebrew_word_to_int w = 0 := by
  refine ⟨?_, ?_, ?_⟩
  · intro h1 h2
    simp [extract_numbers_fallback, h1, h2]
  · intro h
    simp [extract_numbers_fallback, h]
  · intro w h
    simp [hebrew_word_to_int, h]

/-- Witness for `fallback_defaults`: a context with no quantities at all
resolves to `(0, 0)`, and a Hebrew word outside the 1–12 table maps to 0. -/
theorem fallback_defaults_witness :
    (extract_numbers_fallback "שלום".data).1 = 0
    ∧ (extract_numbers_fallback "שלום".data).2 = 0
    ∧ hebrew_word_to_int "מאה".data = 0 := by
  refine ⟨(fallback_defaults "שלום".data).1 (by decide) (by decide),
          (fallback_defaults "שלום".data).2.1 (by decide),
          (fallback_defaults "שלום".data).2.2 "מאה".data (by decide)⟩

/-- Every `hexChar` output is a lowercase hex digit. -/
theorem hexChar_hex (n : Nat) : isHexLowerB (hexChar n) = true := by
  have h : ∀ i : Fin 16, isHexLowerB (hexAux i) = true := by decide
  exact h _

/-- A SHA-256 hex digest has 64 characters. -/
theorem sha256_hexdigest_length (m : List Nat) :
    (sha256_hexdigest m).length = 64 := by
  simp [sha256_hexdigest, wordHex]

/-- Every character of a SHA-256 hex digest is a lowercase hex digit. -/
theorem sha256_hexdigest_hex (m : List Nat) :
    (sha256_hexdigest m).all isHexLowerB = true := by
  simp [sha256_hexdigest, wordHex, hexChar_hex]

/-- C7: `generate_doc_id` is deterministic (a pure function of its three
arguments), always returns a 16-character string of lowercase hex digits,
and that string is the 16-character prefix of the SHA-256 hex digest of the
three inputs joined by `"/"`. -/
theorem generate_doc_id_spec (a b c : String) :
    generate_doc_id a b c = generate_doc_id a b c
    ∧ (generate_doc_id a b c).length = 16
    ∧ ((generate_doc_id a b c).data.all isHexLowerB) = true
    ∧ generate_doc_id a b c =
        String.mk ((sha256_hexdigest
          (utf8Encode (a ++ "/" ++ b ++ "/" ++ c).data)).take 16) := by
  refine ⟨rfl, ?_, ?_, rfl⟩
  · show (String.mk _).length = 16
    rw [String.length]
    simp [List.length_take, sha256_hexdigest_length]
  · show (List.take 16 _).all isHexLowerB = true
    rw [List.all_eq_true]
    intro x hx
    exact List.all_eq_true.mp (sha256_hexdigest_hex _) x (List.take_subset _ _ hx)

/-- C8: the loader's sanity checks raise exactly when the object key does not
end with `".pdf"` after lowercasing or the reported size is below 1024
bytes; and whenever they raise, the main flow exits with code 2 before any
text sampling, Hebrew validation or field extraction. -/
theorem load_pdf_rejects_iff (key : List Char) (contentLength : Option Nat)
    (pages : List (List Char)) :
    (isErr (load_pdf_check key contentLength) = true
      ↔ (endsWithPdf key = false ∨ contentLength.getD 0 < 1024))
    ∧ (isErr (load_pdf_check key contentLength) = true →
        mainModel key contentLength pages = Except.error 2) := by
  constructor
  · by_cases h : endsWithPdf key = true
    · by_cases h2 : contentLength.getD 0 < 1024
      · simp [load_pdf_check, isErr, h, h2]
      · simp [load_pdf_check, isErr, h, h2]
    · have h' : endsWithPdf key = false := by
        cases hval : endsWithPdf key
        · rfl
        · exact absurd hval h
      simp [load_pdf_check, isErr, h']
  · intro h
    rw [mainModel]
    cases hl : load_pdf_check key contentLength with
    | error e => rfl
    | ok u =>
      rw [hl] at h
      simp [isErr] at h

/-- Witness for `load_pdf_rejects_iff`: a non-PDF key of sufficient size is
rejected and the pipeline exits with code 2. -/
theorem load_pdf_rejects_witness :
    isErr (load_pdf_check "doc.txt".data (some 5000)) = true
    ∧ mainModel "doc.txt".data (some 5000) ["שלום".data] = Except.error 2 := by
  refine ⟨by decide,
    (load_pdf_rejects_iff "doc.txt".data (some 5000) ["שלום".data]).2 (by decide)⟩

/-- A fold preserves any invariant its step preserves. -/
theorem foldl_inv {α β : Type} {P : α → Prop} {f : α → β → α} :
    ∀ (l : List β), (∀ b ∈ l, ∀ a, P a → P (f a b)) →
      ∀ a, P a → P (l.foldl f a) := by
  intro l
  induction l with
  | nil => intro _ a h; exact h
  | cons b t ih =>
    intro hstep a h
    exact ih (fun x hx => hstep x (List.mem_cons_of_mem b hx)) (f a b)
      (hstep b (List.mem_cons_self b t) a h)


/-- Overwriting an existing key leaves the key sequence unchanged. -/
theorem dictInsert_keys_mem (m : List (String × List Char)) (k : String)
    (v : List Char) (hmem : m.any (fun p => p.1 == k) = true) :
    (dictInsert m k v).map Prod.fst = m.map Prod.fst := by
  rw [dictInsert, if_pos hmem]
  clear hmem
  induction m with
  | nil => rfl
  | cons p t ih =>
    rw [List.map_cons, List.map_cons, List.map_cons, ih]
    by_cases hp : (p.1 == k) = true
    · rw [if_pos hp, ← eq_of_beq hp]
    · rw [if_neg hp]

/-- Inserting a fresh key appends it to the key sequence. -/
theorem dictInsert_keys_new (m : List (String × List Char)) (k : String)
    (v : List Char) (hmem : ¬ (m.any (fun p => p.1 == k) = true)) :
    (dictInsert m k v).map Prod.fst = m.map Prod.fst ++ [k] := by
  rw [dictInsert, if_neg hmem, List.map_append]
  rfl

/-- Recording a field with a legal key preserves the state invariant. -/
theorem recordField_inv {st : ExtractSt} {k : String} {v : List Char}
    (hk : goodKeys.contains k = true) (h : StInv st) :
    StInv (recordField st k v) := by
  obtain ⟨h1, h2⟩ := h
  by_cases hmem : st.extracted.any (fun p => p.1 == k) = true
  · constructor
    · show ((recordField st k v).extracted.map Prod.fst).all _ = true
      rw [recordField, dictInsert_keys_mem st.extracted k v hmem]
      exact h1
    · show ((recordField st k v).extracted.map Prod.fst).Nodup
      rw [recordField, dictInsert_keys_mem st.extracted k v hmem]
      exact h2
  · have hk' : k ∉ st.extracted.map Prod.fst := by
      intro hmem'
      rw [List.mem_map] at hmem'
      obtain ⟨p, hp, hpk⟩ := hmem'
      apply hmem
      rw [List.any_eq_true]
      exact ⟨p, hp, beq_iff_eq.mpr hpk⟩
    constructor
    · show ((recordField st k v).extracted.map Prod.fst).all _ = true
      rw [recordField, dictInsert_keys_new st.extracted k v hmem]
      rw [List.all_append, Bool.and_eq_true]
      exact ⟨h1, by rw [List.all_cons, List.all_nil, Bool.and_true]; exact hk⟩
    · show ((recordField st k v).extracted.map Prod.fst).Nodup
      rw [recordField, dictInsert_keys_new st.extracted k v hmem]
      refine h2.append (by simp) ?_
      intro x hx hxk
      rw [List.mem_singleton] at hxk
      exact hk' (hxk ▸ hx)

/-- One label step preserves the state invariant. -/
theorem processLabel_inv {st : ExtractSt} {key : String}
    {label line flipped : List Char} (hk : goodKeys.contains key = true)
    (h : StInv st) : StInv (processLabel st key label line flipped) := by
  rcases hfwd : runPat (searchFwd label) line flipped with _ | v
  · rcases hrev : runPat (searchRev label) line flipped with _ | v
    · simpa [processLabel, hfwd, hrev] using h
    · rw [show processLabel st key label line flipped = recordField st key v by
        simp [processLabel, hfwd, hrev]]
      exact recordField_inv hk h
  · rw [show processLabel st key label line flipped = recordField st key v by
      simp [processLabel, hfwd]]
    exact recordField_inv hk h

/-- One key step preserves the state invariant. -/
theorem processKey_inv {line flipped : List Char} {st : ExtractSt}
    {kl : String × List (List Char)} (hkl : kl ∈ field_patterns)
    (h : StInv st) : StInv (processKey line flipped st kl) := by
  have hk : goodKeys.contains kl.1 = true := by
    fin_cases hkl <;> decide
  rw [processKey]
  by_cases hseen : kl.1 ∈ st.seen
  · rw [if_pos hseen]; exact h
  · rw [if_neg hseen]
    exact foldl_inv kl.2 (fun lab _ a ha => processLabel_inv hk ha) st h

/-- One line preserves the state invariant. -/
theorem processLine_inv {st : ExtractSt} {rawLine : List Char}
    (h : StInv st) : StInv (processLine st rawLine) := by
  rw [processLine]
  exact foldl_inv field_patterns
    (fun kl hkl a ha => processKey_inv hkl ha) st h

/-- C10: the structured extractor always produces a mapping whose keys are
among the four field keys with no key repeated; only the first
`EXTRACT_MAX_PAGES` (= 4) pages can contribute; and that default page cap is
smaller than the 10-page sample used for the Hebrew-language validation. -/
theorem extract_structured_data_invariant (pages : List (List Char)) :
    ((extract_structured_data pages EXTRACT_MAX_PAGES).map Prod.fst).all
        (fun k => goodKeys.contains k) = true
    ∧ ((extract_structured_data pages EXTRACT_MAX_PAGES).map Prod.fst).Nodup
    ∧ extract_structured_data pages EXTRACT_MAX_PAGES
        = extract_structured_data (pages.take EXTRACT_MAX_PAGES) EXTRACT_MAX_PAGES
    ∧ EXTRACT_MAX_PAGES < SAMPLE_MAX_PAGES := by
  have hinv : StInv (((pages.take EXTRACT_MAX_PAGES).foldl
      (fun st page => (splitLines page).foldl processLine st)
      { extracted := [], seen := [] })) := by
    refine foldl_inv (pages.take EXTRACT_MAX_PAGES) ?_ _ ⟨rfl, List.nodup_nil⟩
    intro page _ a ha
    exact foldl_inv (splitLines page) (fun ln _ b hb => processLine_inv hb) a ha
  refine ⟨hinv.1, hinv.2, ?_, by decide⟩
  rw [extract_structured_data, extract_structured_data, List.take_take,
    Nat.min_self]
